import Mathlib

/-!
Verification of the CLOT server's parsing-and-session layer.

The definitions below are a shallow embedding of the TypeScript code in
`server/src` (`services/gemini.ts`, `routes/upload.ts`, `routes/chat.ts`,
`utils/sessionStore.ts`).  Texts are `List Char` (JavaScript strings are
sequences of UTF-16 units; every string the server manipulates here is
plain text, so a character list is a faithful carrier).  JavaScript
numbers are modelled as exact rationals; `Math.round` is `⌊x + 1/2⌋`
(round half toward positive infinity), which agrees with IEEE-double
evaluation of every quantity these functions compute over the realistic
input range.
-/

namespace Clot

/-! ### Character helpers (ASCII fragment of the JavaScript primitives) -/

/-- Lowercasing of one character, as `String.prototype.toLowerCase` acts on
the ASCII letters (the only case-carrying characters these routines see). -/
def lowerChar (c : Char) : Char :=
  if 65 ≤ c.toNat ∧ c.toNat ≤ 90 then Char.ofNat (c.toNat + 32) else c

/-- Lowercasing of a whole text. -/
def lowerStr (s : List Char) : List Char := s.map lowerChar

/-- The JavaScript regex class `\s` (whitespace), restricted to its ASCII
members, which are the only whitespace the model output contains. -/
def jsWs (c : Char) : Bool :=
  c.toNat = 32 || c.toNat = 9 || c.toNat = 10 || c.toNat = 13 ||
  c.toNat = 11 || c.toNat = 12

/-- The JavaScript regex class `\w` (word characters), used by `\b`. -/
def wordChar (c : Char) : Bool :=
  (97 ≤ c.toNat && c.toNat ≤ 122) || (65 ≤ c.toNat && c.toNat ≤ 90) ||
  (48 ≤ c.toNat && c.toNat ≤ 57) || c.toNat = 95

/-- `String.prototype.trim`: strip whitespace from both ends. -/
def trimStr (s : List Char) : List Char :=
  ((s.dropWhile jsWs).reverse.dropWhile jsWs).reverse

/-- Strip trailing whitespace only (the `\s*` before a closing fence). -/
def trimEnd (s : List Char) : List Char :=
  (s.reverse.dropWhile jsWs).reverse

/-- Substring test: `needle.isSubOf hay` is `String.prototype.includes`. -/
def isSubOf (needle : List Char) : List Char → Bool
  | [] => decide (needle = [])
  | c :: rest => startsWith needle (c :: rest) || isSubOf needle rest
where
  /-- Starts-with test used by the substring scan. -/
  startsWith : List Char → List Char → Bool
    | [], _ => true
    | _ :: _, [] => false
    | a :: as, b :: bs => a == b && startsWith as bs

/-! ### JSON values and a model of `JSON.parse`

`JSON.parse` is the JavaScript runtime's strict RFC-8259 parser; the
definition below implements that grammar (objects, arrays, strings with
escapes, numbers, literals, strict comma placement — in particular a
trailing comma before `}` or `]` is a parse error).  Numbers are kept as
exact rationals. -/

/-- A JSON number, exactly, as mantissa × 10 ^ exponent (no rounding). -/
structure JNum where
  mant : Int
  ex : Int
deriving DecidableEq

/-- The rational value of a parsed number (used in specifications). -/
def JNum.toRat (n : JNum) : ℚ := (n.mant : ℚ) * (10 : ℚ) ^ n.ex

/-- A parsed JSON value. -/
inductive Jv where
  | jnull
  | jbool (b : Bool)
  | jnum (n : JNum)
  | jstr (s : List Char)
  | jarr (elems : List Jv)
  | jobj (members : List (List Char × Jv))

/-- JSON insignificant whitespace (space, tab, line feed, carriage return). -/
def jsonWs (c : Char) : Bool :=
  c.toNat = 32 || c.toNat = 9 || c.toNat = 10 || c.toNat = 13

/-- Skip JSON whitespace. -/
def wsDrop (cs : List Char) : List Char := cs.dropWhile jsonWs

/-- Decimal digit value, if `c` is a digit. -/
def digitVal (c : Char) : Option Nat :=
  if 48 ≤ c.toNat ∧ c.toNat ≤ 57 then some (c.toNat - 48) else none

/-- Hexadecimal digit value, if `c` is a hex digit. -/
def hexDigitVal (c : Char) : Option Nat :=
  if 48 ≤ c.toNat ∧ c.toNat ≤ 57 then some (c.toNat - 48)
  else if 97 ≤ c.toNat ∧ c.toNat ≤ 102 then some (c.toNat - 87)
  else if 65 ≤ c.toNat ∧ c.toNat ≤ 70 then some (c.toNat - 55)
  else none

/-- Split a leading run of decimal digits off the input. -/
def digitRun : List Char → List Nat × List Char
  | [] => ([], [])
  | c :: rest =>
    match digitVal c with
    | some d => let (ds, r) := digitRun rest; (d :: ds, r)
    | none => ([], c :: rest)

/-- Assemble a digit run into a natural number. -/
def digitsNat (ds : List Nat) : Nat := ds.foldl (fun a d => 10 * a + d) 0

/-- Parse a JSON number (grammar `-? int frac? exp?`), exactly. -/
def jNumParse (cs : List Char) : Option (JNum × List Char) :=
  let (neg, cs1) :=
    match cs with
    | c :: r => if c.toNat = 45 then (true, r) else (false, cs)
    | [] => (false, cs)
  match digitRun cs1 with
  | ([], _) => none
  | (d :: ds, cs2) =>
    if d = 0 ∧ ds ≠ [] then none   -- JSON forbids leading zeros
    else
      let (fds, cs3) :=
        match cs2 with
        | c :: r =>
          if c.toNat = 46 then
            match digitRun r with
            | ([], _) => ([], cs2)    -- a dot with no digits is left unconsumed
            | (fs, r2) => (fs, r2)
          else ([], cs2)
        | [] => ([], cs2)
      let dotHere : Bool := match cs2 with | c :: _ => c.toNat == 46 | [] => false
      if dotHere ∧ fds = [] then
        none   -- `1.` with no fraction digits is a JSON parse error
      else
        let (ex, cs4) :=
          match cs3 with
          | c :: r =>
            if c.toNat = 101 ∨ c.toNat = 69 then
              let (esign, r1) : Int × List Char :=
                match r with
                | s :: r2 =>
                  if s.toNat = 43 then (1, r2)
                  else if s.toNat = 45 then (-1, r2)
                  else (1, r)
                | [] => (1, r)
              match digitRun r1 with
              | ([], _) => (none, cs3)
              | (es, r3) => (some (esign * (digitsNat es : Int)), r3)
            else (some 0, cs3)
          | [] => (some 0, cs3)
        match ex with
        | none => none   -- `1e` with no exponent digits is a parse error
        | some e =>
          let m : Int := (digitsNat ((d :: ds) ++ fds) : Int)
          some (⟨if neg then -m else m, e - (fds.length : Int)⟩, cs4)

/-- Translate a one-character JSON escape. -/
def escChar (c : Char) : Option Char :=
  if c.toNat = 34 then some (Char.ofNat 34)
  else if c.toNat = 92 then some (Char.ofNat 92)
  else if c.toNat = 47 then some (Char.ofNat 47)
  else if c.toNat = 98 then some (Char.ofNat 8)
  else if c.toNat = 102 then some (Char.ofNat 12)
  else if c.toNat = 110 then some (Char.ofNat 10)
  else if c.toNat = 114 then some (Char.ofNat 13)
  else if c.toNat = 116 then some (Char.ofNat 9)
  else none

/-- Parse a JSON string body (the opening quote already consumed). -/
def jStrParse (acc : List Char) : List Char → Option (List Char × List Char)
  | [] => none
  | c :: rest =>
    if c.toNat = 34 then some (acc.reverse, rest)
    else if c.toNat = 92 then
      match rest with
      | e :: rest2 =>
        if e.toNat = 117 then
          match rest2 with
          | a :: b :: c2 :: d :: rest3 =>
            match hexDigitVal a, hexDigitVal b, hexDigitVal c2, hexDigitVal d with
            | some va, some vb, some vc, some vd =>
              jStrParse (Char.ofNat (((va * 16 + vb) * 16 + vc) * 16 + vd) :: acc) rest3
            | _, _, _, _ => none
          | _ => none
        else
          match escChar e with
          | some ch => jStrParse (ch :: acc) rest2
          | none => none
      | [] => none
    else if c.toNat < 32 then none   -- unescaped control characters are rejected
    else jStrParse (c :: acc) rest

/-- One step of a bracketed-sequence parse, for arrays: parse an element with
`p`, then expect `,` (continue) or `]` (stop).  Trailing commas fail because
the recursive call demands another element. -/
def arrItems (p : List Char → Option (Jv × List Char)) :
    Nat → List Char → Option (List Jv × List Char)
  | 0, _ => none
  | n + 1, cs =>
    match p cs with
    | none => none
    | some (v, r) =>
      match wsDrop r with
      | c :: r2 =>
        if c.toNat = 44 then
          match arrItems p n r2 with
          | some (vs, r3) => some (v :: vs, r3)
          | none => none
        else if c.toNat = 93 then some ([v], r2)
        else none
      | [] => none

/-- Member steps for objects: `"key" : value`, then `,` or the closer. -/
def objItems (p : List Char → Option (Jv × List Char)) :
    Nat → List Char → Option (List (List Char × Jv) × List Char)
  | 0, _ => none
  | n + 1, cs =>
    match wsDrop cs with
    | c :: r =>
      if c.toNat = 34 then
        match jStrParse [] r with
        | none => none
        | some (key, r1) =>
          match wsDrop r1 with
          | c2 :: r2 =>
            if c2.toNat = 58 then
              match p r2 with
              | none => none
              | some (v, r3) =>
                match wsDrop r3 with
                | c3 :: r4 =>
                  if c3.toNat = 44 then
                    match objItems p n r4 with
                    | some (ms, r5) => some ((key, v) :: ms, r5)
                    | none => none
                  else if c3.toNat = 125 then some ([(key, v)], r4)
                  else none
                | [] => none
            else none
          | [] => none
      else none
    | [] => none

/-- Parse one JSON value (leading whitespace allowed), fuelled. -/
def jvValue : Nat → List Char → Option (Jv × List Char)
  | 0, _ => none
  | n + 1, cs =>
    match wsDrop cs with
    | [] => none
    | c :: rest =>
      if c.toNat = 110 then
        match rest with
        | u :: l1 :: l2 :: r =>
          if u.toNat = 117 ∧ l1.toNat = 108 ∧ l2.toNat = 108 then some (.jnull, r)
          else none
        | _ => none
      else if c.toNat = 116 then
        match rest with
        | a :: b :: d :: r =>
          if a.toNat = 114 ∧ b.toNat = 117 ∧ d.toNat = 101 then some (.jbool true, r)
          else none
        | _ => none
      else if c.toNat = 102 then
        match rest with
        | a :: b :: d :: e :: r =>
          if a.toNat = 97 ∧ b.toNat = 108 ∧ d.toNat = 115 ∧ e.toNat = 101 then
            some (.jbool false, r)
          else none
        | _ => none
      else if c.toNat = 34 then
        match jStrParse [] rest with
        | some (s, r) => some (.jstr s, r)
        | none => none
      else if c.toNat = 91 then
        match wsDrop rest with
        | c2 :: r2 =>
          if c2.toNat = 93 then some (.jarr [], r2)
          else
            match arrItems (jvValue n) (n + 1) (c2 :: r2) with
            | some (vs, r3) => some (.jarr vs, r3)
            | none => none
        | [] => none
      else if c.toNat = 123 then
        match wsDrop rest with
        | c2 :: r2 =>
          if c2.toNat = 125 then some (.jobj [], r2)
          else
            match objItems (jvValue n) (n + 1) (c2 :: r2) with
            | some (ms, r3) => some (.jobj ms, r3)
            | none => none
        | [] => none
      else if c.toNat = 45 ∨ (48 ≤ c.toNat ∧ c.toNat ≤ 57) then
        match jNumParse (c :: rest) with
        | some (q, r) => some (.jnum q, r)
        | none => none
      else none

/-- `JSON.parse`: parse a complete document, requiring the whole input to be
consumed (up to trailing whitespace); `none` models the thrown SyntaxError. -/
def jvParse (cs : List Char) : Option Jv :=
  match jvValue (cs.length + 1) cs with
  | some (v, r) => if wsDrop r = [] then some v else none
  | none => none

/-! ### The best-effort JSON cleanup (`services/gemini.ts`, the catch branch)

`jsonText.replace(/['']/g, "'").replace(/[""]/g, '"').replace(/,\s*([}\]])/g, '$1')` -/

/-- First replace: curly single quotes (U+2018, U+2019) become apostrophes. -/
def fixSingles (c : Char) : Char :=
  if c.toNat = 8216 ∨ c.toNat = 8217 then Char.ofNat 39 else c

/-- Second replace: curly double quotes (U+201C, U+201D) become `"`. -/
def fixDoubles (c : Char) : Char :=
  if c.toNat = 8220 ∨ c.toNat = 8221 then Char.ofNat 34 else c

/-- Third replace, as the regex engine applies it globally left to right: a
comma followed by optional whitespace and a closing `\x7d` or `]` is replaced
by that closer.  Fuelled; every step consumes at least one character. -/
def commaFixGo : Nat → List Char → List Char
  | 0, cs => cs
  | _ + 1, [] => []
  | n + 1, c :: rest =>
    if c.toNat = 44 then
      match rest.dropWhile jsWs with
      | b :: rest2 =>
        if b.toNat = 125 ∨ b.toNat = 93 then b :: commaFixGo n rest2
        else c :: commaFixGo n rest
      | [] => c :: commaFixGo n rest
    else c :: commaFixGo n rest

/-- Strip trailing commas before closing brackets (global replace). -/
def commaFix (cs : List Char) : List Char := commaFixGo (cs.length + 1) cs

/-- The fixed normalization applied before the single parse retry. -/
def cleanModelJson (cs : List Char) : List Char :=
  commaFix ((cs.map fixSingles).map fixDoubles)

/-! ### Candidate extraction (fenced block, else first `\x7b` to last `\x7d`) -/

/-- Is this character a backtick? -/
def isTick (c : Char) : Bool := c == Char.ofNat 96

/-- Does the list start with three backticks? -/
def startsTriple (cs : List Char) : Bool :=
  match cs with
  | a :: b :: c :: _ => isTick a && isTick b && isTick c
  | _ => false

/-- Three backticks, the fence delimiter. -/
def fence : List Char := [Char.ofNat 96, Char.ofNat 96, Char.ofNat 96]

/-- Split the input at the first occurrence of three backticks, returning the
text before it and the text after it; `none` when there is no fence. -/
def fenceSplit : List Char → Option (List Char × List Char)
  | [] => none
  | c :: rest =>
    if startsTriple (c :: rest) then some ([], rest.drop 2)
    else
      match fenceSplit rest with
      | some (pre, post) => some (c :: pre, post)
      | none => none

/-- Consume a leading case-insensitive `json` tag (the regex `(?:json)?`). -/
def stripJsonTag (cs : List Char) : List Char :=
  if lowerStr (cs.take 4) = ['j', 's', 'o', 'n'] then cs.drop 4 else cs

/-- The fenced-block branch of the extraction: the regex
    three backticks, `(?:json)?`, `\s*`, a lazy body, `\s*`, three backticks
(case-insensitive) — i.e. the text between the first fence (after an optional
`json` tag and leading whitespace) and the next fence, trailing whitespace
stripped. -/
def fencedExtract (cs : List Char) : Option (List Char) :=
  match fenceSplit cs with
  | none => none
  | some (_, afterOpen) =>
    let body := (stripJsonTag afterOpen).dropWhile jsWs
    match fenceSplit body with
    | none => none
    | some (content, _) => some (trimEnd content)

/-- Is this character an opening curly brace? -/
def isOpen (c : Char) : Bool := c == Char.ofNat 123

/-- Is this character a closing curly brace? -/
def isClose (c : Char) : Bool := c == Char.ofNat 125

/-- The characters strictly after the first opening brace, if any. -/
def afterFirstOpen : List Char → Option (List Char)
  | [] => none
  | c :: rest => if isOpen c then some rest else afterFirstOpen rest

/-- The prefix of the input up to and including the last closing brace. -/
def upToLastClose (cs : List Char) : Option (List Char) :=
  match cs.reverse.dropWhile (fun c => !isClose c) with
  | [] => none
  | r => some r.reverse

/-- The greedy-brace branch: the regex `\x7b[\s\S]*\x7d`, i.e. the substring
from the first opening brace to the last closing brace (both included), when
a closer follows the first opener. -/
def braceExtract (cs : List Char) : Option (List Char) :=
  match afterFirstOpen cs with
  | none => none
  | some rest =>
    match upToLastClose rest with
    | none => none
    | some body => some (Char.ofNat 123 :: body)

/-- The candidate JSON text: the fenced block's contents when a fenced block
is present, otherwise the greedy brace substring. -/
def extractJsonText (cs : List Char) : Option (List Char) :=
  match fencedExtract cs with
  | some s => some s
  | none => braceExtract cs

/-- Parse, and on failure normalize once and parse again (the two nested
`JSON.parse` attempts). -/
def parseWithRetry (cs : List Char) : Option Jv :=
  match jvParse cs with
  | some v => some v
  | none => jvParse (cleanModelJson cs)

/-- The message of the JavaScript SyntaxError that escapes when even the
retried parse fails (its exact wording comes from the runtime). -/
def syntaxErrorMsg : List Char := "Unexpected token in JSON".data

/-- The JSON sub-extraction shared by the authenticity and price calls: take
the candidate text (an empty candidate is falsy, hence treated as absent),
parse with one normalize-and-retry, and fail with the caller's message when
no candidate exists.  `Except.error` models the thrown error. -/
def modelJsonOf (noJsonMsg : List Char) (cs : List Char) : Except (List Char) Jv :=
  match extractJsonText cs with
  | none => .error noJsonMsg
  | some t =>
    if t = [] then .error noJsonMsg
    else
      match parseWithRetry t with
      | some v => .ok v
      | none => .error syntaxErrorMsg

/-- `throw new Error("Could not parse JSON from AI authenticity response")`. -/
def authNoJsonMsg : List Char := "Could not parse JSON from AI authenticity response".data

/-- `throw new Error("Could not parse JSON from AI price response")`. -/
def priceNoJsonMsg : List Char := "Could not parse JSON from AI price response".data

/-! ### JavaScript-object access and truthiness -/

/-- Property lookup on a parsed object's member list.  `JSON.parse` keeps the
last of duplicate keys, so the scan prefers later members. -/
def getField (k : List Char) : List (List Char × Jv) → Option Jv
  | [] => none
  | (k2, v) :: rest =>
    match getField k rest with
    | some v2 => some v2
    | none => if k2 = k then some v else none

/-- `parsed.k`: property access; on a non-object it yields undefined (`none`). -/
def jGet (j : Jv) (k : List Char) : Option Jv :=
  match j with
  | .jobj ms => getField k ms
  | _ => none

/-- JavaScript truthiness of a JSON value: `null`, `false`, `0` and the empty
string are falsy; every other value (including `[]` and objects) is truthy. -/
def jsTruthy : Jv → Bool
  | .jnull => false
  | .jbool b => b
  | .jnum n => !(n.mant == 0)
  | .jstr s => !(s == [])
  | .jarr _ => true
  | .jobj _ => true

/-- `v || d` for a possibly-absent property: the property when it is present
and truthy, otherwise the default. -/
def jsOrDefault (v : Option Jv) (d : Jv) : Jv :=
  match v with
  | some x => if jsTruthy x then x else d
  | none => d

/-- The number carried by a property, when the property is a JSON number
(`none` models the NaN that `Math.round` produces from a missing field). -/
def jNumber? (v : Option Jv) : Option JNum :=
  match v with
  | some (.jnum n) => some n
  | _ => none

/-- `Math.round`: round half toward positive infinity. -/
def jsRound (q : ℚ) : Int := ⌊q + 1 / 2⌋

/-! ### Authenticity-result shaping (`computeAuthenticityWithAI`, return) -/

/-- The shaped authenticity result; option fields model the NaN produced by
`Math.round` on a missing or non-numeric property. -/
structure AuthShape where
  score : Option Int
  verdict : Jv
  explanation : Jv
  confidence : Option Int
  detectedBrand : Option Jv
  redFlags : Jv
  authenticityMarkers : Jv

/-- The default verdict substituted for a falsy `verdict` property. -/
def questionable : List Char := "QUESTIONABLE".data

/-- The return-object shaping of `computeAuthenticityWithAI`: rounds `score`
and `confidence`, defaults `verdict` to `"QUESTIONABLE"` and the three list
fields to `[]` via `||`, and drops a `detectedBrand` equal to `"Unknown"`. -/
def shapeAuthenticity (parsed : Jv) : AuthShape :=
  { score := (jNumber? (jGet parsed "score".data)).map (fun n => jsRound n.toRat)
    verdict := jsOrDefault (jGet parsed "verdict".data) (.jstr questionable)
    explanation := jsOrDefault (jGet parsed "explanation".data) (.jarr [])
    confidence := (jNumber? (jGet parsed "confidence".data)).map (fun n => jsRound n.toRat)
    detectedBrand :=
      match jGet parsed "detectedBrand".data with
      | some (.jstr s) => if s = "Unknown".data then none else some (.jstr s)
      | v => v
    redFlags := jsOrDefault (jGet parsed "redFlags".data) (.jarr [])
    authenticityMarkers := jsOrDefault (jGet parsed "authenticityMarkers".data) (.jarr []) }

/-- `computeAuthenticityWithAI`, from the model's raw text to the shaped
result; the thrown errors are `Except.error` with their messages. -/
def computeAuthenticityFromText (cs : List Char) : Except (List Char) AuthShape :=
  (modelJsonOf authNoJsonMsg cs).map shapeAuthenticity

/-! ### Price shaping (`estimatePriceWithAI`, return) -/

/-- The fixed conversion constant `INR_TO_USD = 0.012` of the source. -/
def INR_TO_USD : ℚ := 12 / 1000

/-- One low/median/high band of rounded prices. -/
structure PriceBand where
  low : Option Int
  median : Option Int
  high : Option Int
deriving DecidableEq

/-- The nested `current_market_price` object. -/
structure MarketPrice where
  inr : PriceBand
  usd : PriceBand
deriving DecidableEq

/-- The shaped price estimate (the fields the claims concern). -/
structure PriceShape where
  retail : Option (Int × Int)
  market : MarketPrice
  confidence : Option Jv
  reasoning : Option Jv
  marketInsights : Option Jv

/-- The `current_market_price` assembly: each INR field is `Math.round` of the
parsed number, each USD field is `Math.round` of that number times
`INR_TO_USD`. -/
def shapeMarket (parsed : Jv) : MarketPrice :=
  let num := fun (k : List Char) => jNumber? (jGet parsed k)
  { inr :=
      { low := (num "current_low_inr".data).map (fun n => jsRound n.toRat)
        median := (num "current_median_inr".data).map (fun n => jsRound n.toRat)
        high := (num "current_high_inr".data).map (fun n => jsRound n.toRat) }
    usd :=
      { low := (num "current_low_inr".data).map (fun n => jsRound (n.toRat * INR_TO_USD))
        median := (num "current_median_inr".data).map (fun n => jsRound (n.toRat * INR_TO_USD))
        high := (num "current_high_inr".data).map (fun n => jsRound (n.toRat * INR_TO_USD)) } }

/-- The `retail_price` assembly: present only when `retail_price_inr > 0`;
its USD part falls back to `inr * INR_TO_USD` when `retail_price_usd` is
absent or zero (the `||`). -/
def shapeRetail (parsed : Jv) : Option (Int × Int) :=
  match jNumber? (jGet parsed "retail_price_inr".data) with
  | some n =>
    if 0 < n.toRat then
      let usd : ℚ :=
        match jNumber? (jGet parsed "retail_price_usd".data) with
        | some u => if u.mant = 0 then n.toRat * INR_TO_USD else u.toRat
        | none => n.toRat * INR_TO_USD
      some (jsRound n.toRat, jsRound usd)
    else none
  | none => none

/-- The return-object shaping of `estimatePriceWithAI`. -/
def shapePrice (parsed : Jv) : PriceShape :=
  { retail := shapeRetail parsed
    market := shapeMarket parsed
    confidence := jGet parsed "confidence".data
    reasoning := jGet parsed "reasoning".data
    marketInsights := jGet parsed "marketInsights".data }

/-- `estimatePriceWithAI`, from the model's raw text to the shaped result. -/
def estimatePriceFromText (cs : List Char) : Except (List Char) PriceShape :=
  (modelJsonOf priceNoJsonMsg cs).map shapePrice

/-! ### Warnings assembly (`routes/upload.ts`, the `warnings:` array) -/

/-- First fixed disclaimer. -/
def warnFixed1 : List Char :=
  "This is an automated AI estimate – not a legal authenticity certificate.".data

/-- Second fixed disclaimer. -/
def warnFixed2 : List Char :=
  "For high-value items, consult a professional authenticator.".data

/-- The low-score warning. -/
def warnLowScore : List Char :=
  "⚠️ Low authenticity score detected. Please verify before purchase.".data

/-- `flags.join(', ')`. -/
def joinComma (flags : List (List Char)) : List Char :=
  List.intercalate ", ".data flags

/-- The red-flags warning, carrying the joined flag list. -/
def warnRedFlags (flags : List (List Char)) : List Char :=
  "⚠️ Red flags detected: ".data ++ joinComma flags

/-- `authenticityResult.score < 70`; a NaN score (`none`) compares false. -/
def scoreBelow70 (score : Option Int) : Bool :=
  match score with
  | some n => decide (n < 70)
  | none => false

/-- The warnings array: two fixed disclaimers, the low-score warning or `''`,
the red-flags warning or `''`, then `.filter(Boolean)` drops the empties. -/
def mkWarnings (score : Option Int) (flags : List (List Char)) : List (List Char) :=
  [warnFixed1, warnFixed2,
   if scoreBelow70 score then warnLowScore else [],
   if flags.length > 0 then warnRedFlags flags else []].filter (fun w => !(w == []))

/-! ### Rarity extraction (`routes/upload.ts`, the rarity regex)

`rawAnalysis.match(/\b(common|uncommon|rare|epic|legendary|mythic)\b/i)`:
the leftmost word-bounded, case-insensitive occurrence of a tier name wins;
no occurrence leaves the default `'common'`. -/

/-- The six rarity tiers, in the regex's alternation order. -/
def rarityTokens : List (List Char) :=
  ["common".data, "uncommon".data, "rare".data, "epic".data, "legendary".data, "mythic".data]

/-- Case-insensitive starts-with: `tok` (already lowercase) begins `s`. -/
def ciStarts : List Char → List Char → Bool
  | [], _ => true
  | _ :: _, [] => false
  | t :: ts, c :: cs => t == lowerChar c && ciStarts ts cs

/-- `\b` before a word character: holds at the start of the text or after a
non-word character. -/
def boundaryOk (prev : Option Char) : Bool :=
  match prev with
  | none => true
  | some c => !wordChar c

/-- `\b` after a word character: holds at the end of the text or before a
non-word character. -/
def afterOk (rest : List Char) : Bool :=
  match rest with
  | [] => true
  | c :: _ => !wordChar c

/-- Does `tok` match at the head of `s`, word-bounded on both sides? -/
def tokenHere (prev : Option Char) (s : List Char) (tok : List Char) : Bool :=
  boundaryOk prev && ciStarts tok s && afterOk (s.drop tok.length)

/-- Scan left to right for the first position where some tier name matches
word-bounded (the regex's leftmost-match rule); `prev` is the character just
before the current position. -/
def scanTok (prev : Option Char) : List Char → Option (List Char)
  | [] => none
  | c :: rest =>
    match rarityTokens.find? (tokenHere prev (c :: rest)) with
    | some tok => some tok
    | none => scanTok (some c) rest

/-- The extracted rarity: the matched tier lowercased (the match is a
case-variant of the lowercase tier name, so this is the tier name itself),
defaulting to `'common'`. -/
def extractRarity (s : List Char) : List Char :=
  match scanTok none s with
  | some tok => tok
  | none => "common".data

/-! ### Resale-platform extraction (`routes/upload.ts`, `extractPlatformNames`) -/

/-- The fixed known-platform list, in source order. -/
def knownPlatforms : List (List Char) :=
  ["Grailed".data, "Depop".data, "eBay".data, "Poshmark".data, "Vinted".data,
   "Vestiaire Collective".data, "The RealReal".data, "StockX".data, "GOAT".data,
   "Stadium Goods".data, "Mercari".data, "Etsy".data, "Facebook Marketplace".data,
   "Instagram".data, "Craigslist".data, "Carousell".data]

/-- `lowerText.includes(platform.toLowerCase())`. -/
def platformOccursB (p t : List Char) : Bool := isSubOf (lowerStr p) (lowerStr t)

/-- Length of the split separator matching at the head of the input, if any:
the regex `[,;]|\sand\s|\sor\s` with the `i` flag, alternatives tried in
order. -/
def sepLen (cs : List Char) : Option Nat :=
  match cs with
  | [] => none
  | c :: rest =>
    if c.toNat = 44 ∨ c.toNat = 59 then some 1
    else if jsWs c then
      match rest with
      | x :: y :: z :: more =>
        if lowerChar x == Char.ofNat 97 && lowerChar y == Char.ofNat 110 &&
            lowerChar z == Char.ofNat 100 &&
            (match more with | w :: _ => jsWs w | [] => false) then
          some 5
        else if lowerChar x == Char.ofNat 111 && lowerChar y == Char.ofNat 114 &&
            jsWs z then
          some 4
        else none
      | _ => none
    else none

/-- `text.split(/[,;]|\sand\s|\sor\s/i)`: scan for separators, splitting off
a fragment at each; fuelled, each step consuming at least one character. -/
def splitSepsGo : Nat → List Char → List Char → List (List Char)
  | 0, acc, cs => [acc.reverse ++ cs]
  | _ + 1, acc, [] => [acc.reverse]
  | n + 1, acc, c :: rest =>
    match sepLen (c :: rest) with
    | some k => acc.reverse :: splitSepsGo n [] ((c :: rest).drop k)
    | none => splitSepsGo n (c :: acc) rest

/-- The split used by the fallback branch. -/
def splitSeps (cs : List Char) : List (List Char) :=
  splitSepsGo (cs.length + 1) [] cs

/-- `extractPlatformNames`: collect every known platform occurring in the
text (case-insensitive substring), in list order; if none was found, split
the text on the separators, trim, keep only non-empty fragments shorter
than 30 characters, and cap at 5. -/
def extractPlatformNames (text : List Char) : List (List Char) :=
  let foundPlatforms := knownPlatforms.filter (fun p => platformOccursB p text)
  if foundPlatforms.length > 0 then foundPlatforms
  else
    (((splitSeps text).map trimStr).filter
      (fun p => p.length > 0 && p.length < 30)).take 5

/-! ### Session store (`utils/sessionStore.ts`)

The Firestore collection is modelled as an association list from the
session-id string to the stored document `{ data, expiresAt }` (the
`updatedAt` server timestamp carries no behaviour).  `SESSION_TTL_MS` and
the clock are explicit parameters.  Every operation is a total function:
the code throws for neither missing nor expired keys. -/

/-- One stored session document. -/
structure StoredDoc (α : Type) where
  data : α
  expiresAt : Nat
deriving DecidableEq

/-- The sessions collection. -/
abbrev Store (α : Type) := List (String × StoredDoc α)

/-- Document lookup by id (ids are unique; the operations preserve that). -/
def storeLookup (s : Store α) (id : String) : Option (StoredDoc α) :=
  match s with
  | [] => none
  | (k, v) :: rest => if k = id then some v else storeLookup rest id

/-- `docRef.set(...)`: write the document, replacing any existing one. -/
def setEntry (s : Store α) (id : String) (d : StoredDoc α) : Store α :=
  match s with
  | [] => [(id, d)]
  | (k, v) :: rest => if k = id then (id, d) :: rest else (k, v) :: setEntry rest id d

/-- `docRef.delete()`: remove the document; a no-op when absent. -/
def removeEntry (s : Store α) (id : String) : Store α :=
  match s with
  | [] => []
  | (k, v) :: rest => if k = id then removeEntry rest id else (k, v) :: removeEntry rest id

/-- `saveSession`: store `{ data, expiresAt: Date.now() + SESSION_TTL_MS }`. -/
def saveSession (ttl now : Nat) (s : Store α) (id : String) (data : α) : Store α :=
  setEntry s id ⟨data, now + ttl⟩

/-- `getSession`: absent gives `null`; a document whose `expiresAt` is set
(truthy, i.e. nonzero) and in the past is deleted and gives `null`; otherwise
the stored data is returned.  The pair carries the possibly-updated store. -/
def getSession (now : Nat) (s : Store α) (id : String) : Option α × Store α :=
  match storeLookup s id with
  | none => (none, s)
  | some doc =>
    if doc.expiresAt ≠ 0 ∧ doc.expiresAt < now then (none, removeEntry s id)
    else (some doc.data, s)

/-- `updateSession`: `docRef.set({ data, expiresAt: Date.now() + TTL }, {
merge: true })` — with every field supplied, an unconditional upsert that
also refreshes `expiresAt`; it performs no existence or expiry check. -/
def updateSession (ttl now : Nat) (s : Store α) (id : String) (data : α) : Store α :=
  setEntry s id ⟨data, now + ttl⟩

/-- `deleteSession`: idempotent removal. -/
def deleteSession (s : Store α) (id : String) : Store α := removeEntry s id

/-! ### The `/api/analyze` handler (`routes/upload.ts`)

Modelled from the model responses onward (upload validation, thumbnailing
and cloud storage are external collaborators with no bearing on the
claims): the handler runs the authenticity extraction, then the price
extraction, assembles the analysis and saves a fresh session; any error
thrown on the way reaches the route's catch, which answers 500 with the
error's message as `details` and never touches the session store. -/

/-- The analysis fields assembled by the handler that the claims concern. -/
structure AnalysisDoc where
  authScore : Option Int
  verdict : Jv
  redFlags : List (List Char)
  market : MarketPrice
  rarity : List Char
  warnings : List (List Char)

/-- The per-session data saved by the handler. -/
structure SessionDoc where
  imagePaths : List (List Char)
  analysis : AnalysisDoc
  conversationHistory : List (List Char × List Char)

/-- The handler's observable outcome: HTTP status, the `details` field of an
error body, and the session store afterwards. -/
structure AnalyzeOutcome where
  status : Nat
  errorDetails : Option (List Char)
  store : Store SessionDoc

/-- The wrapper `computeAuthenticityWithAI` puts on an escaping error. -/
def authFailWrap : List Char := "Authenticity analysis failed: ".data

/-- The wrapper `estimatePriceWithAI` puts on an escaping error. -/
def priceFailWrap : List Char := "Price estimation failed: ".data

/-- The string members of a shaped `redFlags` array (the handler joins and
counts them; the model is asked for an array of strings). -/
def jvStringItems : Jv → List (List Char)
  | .jarr xs => xs.filterMap (fun v => match v with | .jstr s => some s | _ => none)
  | _ => []

/-- The `/analyze` handler from the three model texts on: authenticity
extraction, then price extraction, then assembly and `saveSession` under a
fresh id; an extraction error short-circuits to a 500 whose `details` is the
wrapped message, with the store untouched. -/
def analyzeHandler (ttl now : Nat) (store : Store SessionDoc) (sid : String)
    (imagePaths : List (List Char)) (narrative authText priceText : List Char) :
    AnalyzeOutcome :=
  match computeAuthenticityFromText authText with
  | .error e => ⟨500, some (authFailWrap ++ e), store⟩
  | .ok auth =>
    match estimatePriceFromText priceText with
    | .error e => ⟨500, some (priceFailWrap ++ e), store⟩
    | .ok price =>
      let flags := jvStringItems auth.redFlags
      let analysis : AnalysisDoc :=
        { authScore := auth.score
          verdict := auth.verdict
          redFlags := flags
          market := price.market
          rarity := extractRarity narrative
          warnings := mkWarnings auth.score flags }
      ⟨200, none, saveSession ttl now store sid ⟨imagePaths, analysis, []⟩⟩

/-! ## Store lemmas -/

/-- Writing a document makes it the one found under its id. -/
theorem storeLookup_setEntry_self (s : Store α) (id : String) (d : StoredDoc α) :
    storeLookup (setEntry s id d) id = some d := by
  induction s with
  | nil => simp [setEntry, storeLookup]
  | cons kv rest ih =>
    obtain ⟨k, v⟩ := kv
    by_cases h : k = id <;> simp [setEntry, storeLookup, h, ih]

/-- Writing one document leaves every other id's lookup unchanged. -/
theorem storeLookup_setEntry_ne (s : Store α) (id id2 : String) (d : StoredDoc α)
    (h : id2 ≠ id) : storeLookup (setEntry s id d) id2 = storeLookup s id2 := by
  have h2 : id ≠ id2 := h.symm
  induction s with
  | nil => simp [setEntry, storeLookup, h2]
  | cons kv rest ih =>
    obtain ⟨k, v⟩ := kv
    by_cases hk : k = id
    · subst hk
      simp [setEntry, storeLookup, h2]
    · simp [setEntry, storeLookup, hk, ih]

/-- After removal, the id is no longer found. -/
theorem storeLookup_removeEntry_self (s : Store α) (id : String) :
    storeLookup (removeEntry s id) id = none := by
  induction s with
  | nil => simp [removeEntry, storeLookup]
  | cons kv rest ih =>
    obtain ⟨k, v⟩ := kv
    by_cases h : k = id <;> simp [removeEntry, storeLookup, h, ih]

/-! ## Claim C3 -/

/-- C3 counterexample: the claim says the update operation returns a NotFound
signal instead of writing when no record exists for the id; in the code,
updating an absent id writes a fresh record (an upsert) — here the empty
store becomes a one-record store. -/
theorem claim_C3_counterexample :
    updateSession 5 0 ([] : Store Nat) "s" 7 = [("s", ⟨7, 5⟩)]
    ∧ updateSession 5 0 ([] : Store Nat) "s" 7 ≠ ([] : Store Nat) := by
  refine ⟨rfl, ?_⟩
  simp [updateSession, setEntry]

/-- C3 (amended): `updateSession` is an unconditional upsert: for every store
and id — present, expired or absent — it writes the new data with
`expiresAt = now + TTL`, leaves every other id untouched, and an immediate
read returns the new data; it never returns a NotFound signal (the `/chat`
route obtains NotFound from the preceding `getSession` instead). -/
theorem claim_C3_update_unconditional_upsert {α : Type} (ttl now : Nat)
    (store : Store α) (id : String) (d : α) :
    storeLookup (updateSession ttl now store id d) id = some ⟨d, now + ttl⟩
    ∧ (∀ id2, id2 ≠ id →
        storeLookup (updateSession ttl now store id d) id2 = storeLookup store id2)
    ∧ (getSession now (updateSession ttl now store id d) id).1 = some d := by
  refine ⟨storeLookup_setEntry_self store id _, ?_, ?_⟩
  · intro id2 h
    exact storeLookup_setEntry_ne store id id2 _ h
  · have hl := storeLookup_setEntry_self store id (⟨d, now + ttl⟩ : StoredDoc α)
    simp only [getSession, updateSession] at *
    rw [hl]
    have : ¬(now + ttl < now) := by omega
    simp [this]

/-- C3 witness: the amended update behaviour at a concrete store. -/
theorem claim_C3_witness :
    storeLookup (updateSession 5 0 ([] : Store Nat) "s" 7) "s" = some ⟨7, 5⟩
    ∧ storeLookup (updateSession 5 0 ([] : Store Nat) "s" 7) "t" = none :=
  ⟨(claim_C3_update_unconditional_upsert 5 0 [] "s" 7).1,
   (claim_C3_update_unconditional_upsert 5 0 [] "s" 7).2.1 "t" (by decide)⟩

/-! ## Claim C4 -/

/-- C4: a saved session read before its TTL expires returns the stored data;
a record whose (set, i.e. nonzero) `expiresAt` lies in the past reads as
not-found and is deleted, and a subsequent read of the same id is still
not-found with no further change (idempotent lazy expiry); a missing key
reads as not-found with the store untouched — no operation throws. -/
theorem claim_C4_roundtrip_and_lazy_expiry {α : Type} (ttl now0 now : Nat)
    (store : Store α) (id : String) (d : α) :
    (now ≤ now0 + ttl →
      (getSession now (saveSession ttl now0 store id d) id).1 = some d)
    ∧ (∀ doc, storeLookup store id = some doc → 0 < doc.expiresAt →
        doc.expiresAt < now →
        getSession now store id = (none, deleteSession store id)
        ∧ getSession now (deleteSession store id) id =
            (none, deleteSession store id))
    ∧ (storeLookup store id = none → getSession now store id = (none, store)) := by
  refine ⟨?_, ?_, ?_⟩
  · intro hle
    have hl := storeLookup_setEntry_self store id (⟨d, now0 + ttl⟩ : StoredDoc α)
    simp only [getSession, saveSession]
    rw [hl]
    have : ¬(now0 + ttl < now) := by omega
    simp [this]
  · intro doc hdoc hpos hlt
    constructor
    · simp only [getSession, deleteSession]
      rw [hdoc]
      have : doc.expiresAt ≠ 0 := by omega
      simp [this, hlt]
    · simp only [getSession, deleteSession]
      rw [storeLookup_removeEntry_self]
  · intro h
    simp only [getSession]
    rw [h]

/-- C4 witness: the three behaviours at concrete stores and clocks. -/
theorem claim_C4_witness :
    (getSession 3 (saveSession 5 0 ([] : Store Nat) "s" 7) "s").1 = some 7
    ∧ getSession 9 [("s", (⟨7, 2⟩ : StoredDoc Nat))] "s" = (none, [])
    ∧ getSession 9 (deleteSession [("s", (⟨7, 2⟩ : StoredDoc Nat))] "s") "s" =
        (none, [])
    ∧ getSession 9 ([] : Store Nat) "s" = (none, []) :=
  ⟨(claim_C4_roundtrip_and_lazy_expiry 5 0 3 [] "s" 7).1 (by decide),
   ((claim_C4_roundtrip_and_lazy_expiry 5 0 9 [("s", ⟨7, 2⟩)] "s" 7).2.1
      ⟨7, 2⟩ rfl (by decide) (by decide)).1,
   ((claim_C4_roundtrip_and_lazy_expiry 5 0 9 [("s", ⟨7, 2⟩)] "s" 7).2.1
      ⟨7, 2⟩ rfl (by decide) (by decide)).2,
   (claim_C4_roundtrip_and_lazy_expiry 5 0 9 [] "s" 7).2.2 rfl⟩

/-! ## Claim C9 -/

/-- C9: a parsed authenticity JSON whose `verdict` property is absent, or
present but falsy (empty string, `null`, `false`, or `0`), is shaped to the
literal verdict `"QUESTIONABLE"` rather than left undefined. -/
theorem claim_C9_falsy_verdict_defaults (parsed : Jv)
    (h : jGet parsed "verdict".data = none
       ∨ ∃ v, jGet parsed "verdict".data = some v ∧ jsTruthy v = false) :
    (shapeAuthenticity parsed).verdict = Jv.jstr questionable := by
  rcases h with h | ⟨v, hv, hfalse⟩
  · simp [shapeAuthenticity, jsOrDefault, h]
  · simp [shapeAuthenticity, jsOrDefault, hv, hfalse]

/-- C9 witness: an empty-string verdict becomes `"QUESTIONABLE"`. -/
theorem claim_C9_witness :
    (shapeAuthenticity (Jv.jobj [("verdict".data, Jv.jstr [])])).verdict
      = Jv.jstr questionable :=
  claim_C9_falsy_verdict_defaults _ (Or.inr ⟨Jv.jstr [], rfl, rfl⟩)

/-! ## Claim C7 -/

/-- The four canonical verdict tokens. -/
def canonicalVerdicts : List (List Char) :=
  ["AUTHENTIC".data, "LIKELY AUTHENTIC".data, "QUESTIONABLE".data, "COUNTERFEIT".data]

/-- C7 counterexample: the claim says every verdict outside the four tokens
is retained as-is; the empty string is outside the four tokens, yet the
shaping replaces it by `"QUESTIONABLE"` (the `||` default treats it as
falsy), so it is not retained. -/
theorem claim_C7_counterexample :
    (shapeAuthenticity (Jv.jobj [("verdict".data, Jv.jstr [])])).verdict
        = Jv.jstr questionable
    ∧ Jv.jstr questionable ≠ Jv.jstr ([] : List Char) := by
  refine ⟨rfl, ?_⟩
  intro h
  injection h with h2
  exact absurd h2 (by decide)

/-- C7 (amended): each of the four canonical verdict tokens is returned
unchanged, and every NON-EMPTY verdict string — inside or outside the four
tokens — is retained as-is; only an empty (falsy) verdict is replaced by
`"QUESTIONABLE"`. -/
theorem claim_C7_verdict_passthrough (parsed : Jv) (s : List Char) :
    (jGet parsed "verdict".data = some (Jv.jstr s) → s ≠ [] →
      (shapeAuthenticity parsed).verdict = Jv.jstr s)
    ∧ (∀ t ∈ canonicalVerdicts,
        (shapeAuthenticity (Jv.jobj [("verdict".data, Jv.jstr t)])).verdict
          = Jv.jstr t) := by
  constructor
  · intro hv hne
    have ht : jsTruthy (Jv.jstr s) = true := by simp [jsTruthy, hne]
    simp [shapeAuthenticity, jsOrDefault, hv, ht]
  · intro t ht
    fin_cases ht <;> rfl

/-- C7 witness: a non-canonical, non-empty verdict passes through. -/
theorem claim_C7_witness :
    (shapeAuthenticity
        (Jv.jobj [("verdict".data, Jv.jstr "PROBABLY GENUINE".data)])).verdict
      = Jv.jstr "PROBABLY GENUINE".data :=
  (claim_C7_verdict_passthrough _ _).1 rfl (by decide)

/-! ## Claim C6 -/

/-- `Math.round` maps every integer to itself. -/
theorem jsRound_intCast (n : ℤ) : jsRound (n : ℚ) = n := by
  rw [jsRound, Int.floor_eq_iff]
  refine ⟨by linarith, ?_⟩
  have : ((n + 1 : ℤ) : ℚ) = (n : ℚ) + 1 := by push_cast; ring
  linarith [this.ge]

/-- C6: when the three current-market INR properties are integer-valued
numbers, the shaped `inr` band carries exactly those integers, and each
`usd` entry is the corresponding INR value times the fixed constant
`INR_TO_USD = 0.012`, rounded by `Math.round`; `jsRound` is
nearest-integer rounding (it never strays more than half a unit). -/
theorem claim_C6_price_conversion (parsed : Jv) (na nb nc : JNum) (a b c : ℤ)
    (hla : jGet parsed "current_low_inr".data = some (Jv.jnum na))
    (hlb : jGet parsed "current_median_inr".data = some (Jv.jnum nb))
    (hlc : jGet parsed "current_high_inr".data = some (Jv.jnum nc))
    (hva : na.toRat = a) (hvb : nb.toRat = b) (hvc : nc.toRat = c) :
    (shapeMarket parsed).inr = ⟨some a, some b, some c⟩
    ∧ (shapeMarket parsed).usd =
        ⟨some (jsRound (a * INR_TO_USD)), some (jsRound (b * INR_TO_USD)),
         some (jsRound (c * INR_TO_USD))⟩
    ∧ (∀ q : ℚ, (jsRound q : ℚ) - q ≤ 1 / 2 ∧ q - (jsRound q : ℚ) < 1 / 2) := by
  refine ⟨?_, ?_, ?_⟩
  · simp [shapeMarket, jNumber?, hla, hlb, hlc, hva, hvb, hvc, jsRound_intCast]
  · simp [shapeMarket, jNumber?, hla, hlb, hlc, hva, hvb, hvc]
  · intro q
    have h1 : (jsRound q : ℚ) ≤ q + 1 / 2 := Int.floor_le (q + 1 / 2)
    have h2 : q + 1 / 2 < (jsRound q : ℚ) + 1 := Int.lt_floor_add_one (q + 1 / 2)
    constructor <;> linarith

/-- C6 witness: the spec's 1000/2000/3000 INR example yields those INR
values back and 12/24/36 USD. -/
theorem claim_C6_witness :
    (shapeMarket (Jv.jobj
        [("current_low_inr".data, Jv.jnum ⟨1000, 0⟩),
         ("current_median_inr".data, Jv.jnum ⟨2000, 0⟩),
         ("current_high_inr".data, Jv.jnum ⟨3000, 0⟩)])).inr
      = ⟨some 1000, some 2000, some 3000⟩
    ∧ (shapeMarket (Jv.jobj
        [("current_low_inr".data, Jv.jnum ⟨1000, 0⟩),
         ("current_median_inr".data, Jv.jnum ⟨2000, 0⟩),
         ("current_high_inr".data, Jv.jnum ⟨3000, 0⟩)])).usd
      = ⟨some 12, some 24, some 36⟩ := by
  have h := claim_C6_price_conversion
    (Jv.jobj
      [("current_low_inr".data, Jv.jnum ⟨1000, 0⟩),
       ("current_median_inr".data, Jv.jnum ⟨2000, 0⟩),
       ("current_high_inr".data, Jv.jnum ⟨3000, 0⟩)])
    ⟨1000, 0⟩ ⟨2000, 0⟩ ⟨3000, 0⟩ 1000 2000 3000
    rfl rfl rfl
    (by simp [JNum.toRat]) (by simp [JNum.toRat]) (by simp [JNum.toRat])
  refine ⟨h.1, ?_⟩
  rw [h.2.1]
  have e1 : ((1000 : ℤ) : ℚ) * INR_TO_USD = ((12 : ℤ) : ℚ) := by norm_num [INR_TO_USD]
  have e2 : ((2000 : ℤ) : ℚ) * INR_TO_USD = ((24 : ℤ) : ℚ) := by norm_num [INR_TO_USD]
  have e3 : ((3000 : ℤ) : ℚ) * INR_TO_USD = ((36 : ℤ) : ℚ) := by norm_num [INR_TO_USD]
  rw [e1, e2, e3, jsRound_intCast, jsRound_intCast, jsRound_intCast]

/-! ## Claim C10 -/

/-- Lists differing on a finite cut differ. -/
theorem ne_of_take_ne {l1 l2 : List Char} (n : Nat) (h : l1.take n ≠ l2.take n) :
    l1 ≠ l2 := fun he => h (he ▸ rfl)

/-- The first four characters of every red-flags warning are fixed. -/
theorem warnRedFlags_take4 (flags : List (List Char)) :
    (warnRedFlags flags).take 4 = "⚠️ R".data := by
  unfold warnRedFlags
  rw [List.take_append_of_le_length (by decide)]
  decide

/-- The red-flags warning is never the low-score warning. -/
theorem warnRedFlags_ne_low (flags : List (List Char)) :
    warnRedFlags flags ≠ warnLowScore :=
  ne_of_take_ne 4 (by rw [warnRedFlags_take4]; decide)

/-- The red-flags warning is never the first disclaimer. -/
theorem warnRedFlags_ne_f1 (flags : List (List Char)) :
    warnRedFlags flags ≠ warnFixed1 :=
  ne_of_take_ne 4 (by rw [warnRedFlags_take4]; decide)

/-- The red-flags warning is never the second disclaimer. -/
theorem warnRedFlags_ne_f2 (flags : List (List Char)) :
    warnRedFlags flags ≠ warnFixed2 :=
  ne_of_take_ne 4 (by rw [warnRedFlags_take4]; decide)

/-- The red-flags warning is never empty. -/
theorem warnRedFlags_ne_nil (flags : List (List Char)) :
    warnRedFlags flags ≠ [] :=
  ne_of_take_ne 4 (by rw [warnRedFlags_take4]; decide)

/-- The boolean guard holds exactly on scores strictly below 70. -/
theorem scoreBelow70_iff (score : Option Int) :
    scoreBelow70 score = true ↔ ∃ n, score = some n ∧ n < 70 := by
  cases score with
  | none => simp [scoreBelow70]
  | some n => simp [scoreBelow70]

/-- The warnings list, written as the two fixed disclaimers followed by the
two optional warnings (the `.filter(Boolean)` keeps exactly these). -/
theorem mkWarnings_eq (score : Option Int) (flags : List (List Char)) :
    mkWarnings score flags =
      [warnFixed1, warnFixed2]
        ++ (if scoreBelow70 score then [warnLowScore] else [])
        ++ (if flags.length > 0 then [warnRedFlags flags] else []) := by
  have hf1 : warnFixed1 ≠ [] := by decide
  have hf2 : warnFixed2 ≠ [] := by decide
  have hlow : warnLowScore ≠ [] := by decide
  by_cases hl : flags.length > 0
  all_goals cases hb : scoreBelow70 score
  all_goals
    simp [mkWarnings, hb, hl, List.filter_cons, List.filter_nil,
      hf1, hf2, hlow, warnRedFlags_ne_nil flags]

/-- C10: every warnings list starts with the two fixed disclaimers; it
contains the low-score warning exactly when the score is strictly below 70;
it contains the red-flags warning exactly when the red-flag list is
non-empty; and it never contains an empty string. -/
theorem claim_C10_warnings (score : Option Int) (flags : List (List Char)) :
    (∃ rest, mkWarnings score flags = warnFixed1 :: warnFixed2 :: rest)
    ∧ (warnLowScore ∈ mkWarnings score flags ↔ ∃ n, score = some n ∧ n < 70)
    ∧ (warnRedFlags flags ∈ mkWarnings score flags ↔ flags ≠ [])
    ∧ (∀ w ∈ mkWarnings score flags, w ≠ []) := by
  have hf1 : warnFixed1 ≠ [] := by decide
  have hf2 : warnFixed2 ≠ [] := by decide
  have hlow : warnLowScore ≠ [] := by decide
  have hlf1 : warnLowScore ≠ warnFixed1 := by decide
  have hlf2 : warnLowScore ≠ warnFixed2 := by decide
  have hlr : warnLowScore ≠ warnRedFlags flags :=
    Ne.symm (warnRedFlags_ne_low flags)
  have hrf1 := warnRedFlags_ne_f1 flags
  have hrf2 := warnRedFlags_ne_f2 flags
  have hrlow := warnRedFlags_ne_low flags
  have hrnil := warnRedFlags_ne_nil flags
  have hflags : flags.length > 0 ↔ flags ≠ [] := by cases flags <;> simp
  have hmk := mkWarnings_eq score flags
  refine ⟨?_, ?_, ?_, ?_⟩
  · refine ⟨(if scoreBelow70 score then [warnLowScore] else [])
      ++ (if flags.length > 0 then [warnRedFlags flags] else []), ?_⟩
    rw [hmk]
    simp
  · rw [hmk, ← scoreBelow70_iff]
    by_cases hf : flags.length > 0
    all_goals cases hb : scoreBelow70 score
    all_goals simp [hf, hb, hlf1, hlf2, hlr]
  · rw [hmk]
    by_cases hf : flags.length > 0
    all_goals cases hb : scoreBelow70 score
    all_goals simp [hf, hb, hrf1, hrf2, hrlow, hflags.not.mp, ← hflags]
  · rw [hmk]
    intro w hw
    by_cases hf : flags.length > 0
    all_goals cases hb : scoreBelow70 score
    all_goals simp [hf, hb] at hw
    all_goals rcases hw with h | h | h | h <;> simp_all

/-- C10 witness: a below-threshold score puts the low-score warning in the
list. -/
theorem claim_C10_witness :
    warnLowScore ∈ mkWarnings (some 50) ["stitching".data] :=
  (claim_C10_warnings (some 50) ["stitching".data]).2.1.mpr ⟨50, rfl, by decide⟩

/-! ## Claim C5 -/

/-- `startsWith` finds exactly the lists that begin with the needle. -/
theorem startsWith_iff (needle : List Char) :
    ∀ s, isSubOf.startsWith needle s = true ↔ ∃ rest, s = needle ++ rest := by
  induction needle with
  | nil => intro s; simp [isSubOf.startsWith]
  | cons a as ih =>
    intro s
    cases s with
    | nil => simp [isSubOf.startsWith]
    | cons b bs =>
      simp only [isSubOf.startsWith, Bool.and_eq_true, beq_iff_eq, ih,
        List.cons_append, List.cons.injEq]
      constructor
      · rintro ⟨hab, rest, hr⟩
        exact ⟨rest, hab.symm, hr⟩
      · rintro ⟨rest, hab, hr⟩
        exact ⟨hab.symm, rest, hr⟩

/-- The substring scan finds exactly the infix occurrences. -/
theorem isSubOf_iff (needle : List Char) :
    ∀ hay, isSubOf needle hay = true ↔ ∃ pre post, hay = pre ++ needle ++ post := by
  intro hay
  induction hay with
  | nil =>
    simp only [isSubOf, decide_eq_true_eq]
    constructor
    · intro h
      exact ⟨[], [], by simp [h]⟩
    · rintro ⟨pre, post, hp⟩
      rcases List.append_eq_nil.mp (List.append_eq_nil.mp hp.symm).1 with ⟨_, h2⟩
      exact h2
  | cons c rest ih =>
    simp only [isSubOf, Bool.or_eq_true, startsWith_iff, ih]
    constructor
    · rintro (⟨post, hp⟩ | ⟨pre, post, hp⟩)
      · exact ⟨[], post, by simp [hp]⟩
      · exact ⟨c :: pre, post, by simp [hp]⟩
    · rintro ⟨pre, post, hp⟩
      cases pre with
      | nil => exact Or.inl ⟨post, by simpa using hp⟩
      | cons x xs =>
        simp only [List.cons_append, List.cons.injEq] at hp
        exact Or.inr ⟨xs, post, hp.2⟩

/-- A case-insensitive occurrence of `p` inside `t`, stated as the claim
states it: the lowercased text contains the lowercased name as a substring. -/
abbrev OccursIn (p t : List Char) : Prop :=
  ∃ pre post, lowerStr t = pre ++ lowerStr p ++ post

/-- The boolean test of the source and the declarative occurrence agree. -/
theorem platformOccursB_iff (p t : List Char) :
    platformOccursB p t = true ↔ OccursIn p t :=
  isSubOf_iff (lowerStr p) (lowerStr t)

/-- A failed boolean test refutes the declarative occurrence. -/
theorem not_occursIn_of_eq_false {p t : List Char}
    (h : platformOccursB p t = false) : ¬ OccursIn p t := by
  intro hocc
  rw [(platformOccursB_iff p t).mpr hocc] at h
  exact Bool.noConfusion h

/-- The fixed platform list has no duplicates. -/
theorem knownPlatforms_nodup : knownPlatforms.Nodup := by decide

/-- C5 (amended): when some known platform occurs in the text
(case-insensitive substring), the extraction returns exactly the occurring
known platforms, in the fixed list's order, duplicate-free — a deterministic
order; when no known platform occurs, it returns the text split on the
separators, trimmed, restricted to non-empty fragments shorter than 30
characters and capped at 5 — which may be EMPTY (there is no further
fallback returning the original candidate text); the spec's example yields
`["Grailed","Depop","eBay"]`. -/
theorem claim_C5_platform_extraction :
    (∀ t, (∃ p ∈ knownPlatforms, OccursIn p t) →
        extractPlatformNames t = knownPlatforms.filter (fun p => platformOccursB p t)
        ∧ (∀ p, p ∈ extractPlatformNames t ↔ p ∈ knownPlatforms ∧ OccursIn p t)
        ∧ (extractPlatformNames t).Nodup)
    ∧ (∀ t, (∀ p ∈ knownPlatforms, ¬ OccursIn p t) →
        extractPlatformNames t =
          (((splitSeps t).map trimStr).filter
            (fun p => p.length > 0 && p.length < 30)).take 5)
    ∧ extractPlatformNames ("You can sell this on Grailed, Depop or eBay".data)
        = ["Grailed".data, "Depop".data, "eBay".data] := by
  refine ⟨?_, ?_, rfl⟩
  · rintro t ⟨p, hp, hocc⟩
    have hb : platformOccursB p t = true := (platformOccursB_iff p t).mpr hocc
    have hmem : p ∈ knownPlatforms.filter (fun p => platformOccursB p t) :=
      List.mem_filter.mpr ⟨hp, hb⟩
    have hlen : (knownPlatforms.filter (fun p => platformOccursB p t)).length > 0 :=
      List.length_pos.mpr (List.ne_nil_of_mem hmem)
    have hext : extractPlatformNames t
        = knownPlatforms.filter (fun p => platformOccursB p t) := by
      simp [extractPlatformNames, hlen]
    refine ⟨hext, ?_, ?_⟩
    · intro q
      rw [hext, List.mem_filter, platformOccursB_iff]
    · rw [hext]
      exact knownPlatforms_nodup.filter _
  · intro t hnone
    have hnil : knownPlatforms.filter (fun p => platformOccursB p t) = [] := by
      rw [List.filter_eq_nil_iff]
      intro p hp
      intro hb
      exact hnone p hp ((platformOccursB_iff p t).mp hb)
    simp [extractPlatformNames, hnil]

/-- C5 witness: the known-platform branch at the spec's example. -/
theorem claim_C5_witness :
    "Grailed".data ∈ extractPlatformNames
        ("You can sell this on Grailed, Depop or eBay".data)
    ∧ extractPlatformNames ("a sentence long enough that the under-30 filter drops it".data)
        = (((splitSeps
              ("a sentence long enough that the under-30 filter drops it".data)).map
                trimStr).filter (fun p => p.length > 0 && p.length < 30)).take 5 := by
  constructor
  · exact ((claim_C5_platform_extraction.1
      ("You can sell this on Grailed, Depop or eBay".data)
      ⟨"Grailed".data, by decide,
        "you can sell this on ".data, ", depop or ebay".data, by decide⟩).2.1
      "Grailed".data).mpr
      ⟨by decide, "you can sell this on ".data, ", depop or ebay".data, by decide⟩
  · refine claim_C5_platform_extraction.2.1
      ("a sentence long enough that the under-30 filter drops it".data) ?_
    intro p hp
    fin_cases hp <;> exact not_occursIn_of_eq_false (by decide)

/-- C5 counterexample: the claim's final fallback ("otherwise the original
candidate strings are returned unchanged") does not exist in the code — a
30-plus-character candidate with no separators and no known platform comes
back as the empty list, not as itself. -/
theorem claim_C5_counterexample :
    extractPlatformNames
        ("This is a very long platform description sentence".data) = []
    ∧ ("This is a very long platform description sentence".data : List Char) ≠ [] :=
  ⟨rfl, by decide⟩

/-! ## Claim C8 -/

/-- A word-bounded, case-insensitive match of the (lowercase) token at the
head of `s`, stated declaratively: `s` begins with a case-variant of the
token, the previous character (if any) is a non-word character, and so is
the following one (if any). -/
def MatchesHere (prev : Option Char) (s : List Char) (tok : List Char) : Prop :=
  ∃ w rest, s = w ++ rest ∧ lowerStr w = tok
    ∧ boundaryOk prev = true ∧ afterOk rest = true

/-- The token occurs, word-bounded, at position `i` of `s`; `prev` is the
character just before `s` (for the boundary at position 0). -/
def OccursFrom : Option Char → List Char → Nat → List Char → Prop
  | prev, s, 0, tok => MatchesHere prev s tok
  | _, [], _ + 1, _ => False
  | _, c :: rest, i + 1, tok => OccursFrom (some c) rest i tok

/-- The case-insensitive starts-with test finds exactly the decompositions
whose head lowercases to the token. -/
theorem ciStarts_iff (tok : List Char) :
    ∀ s, ciStarts tok s = true ↔ ∃ w rest, s = w ++ rest ∧ lowerStr w = tok := by
  induction tok with
  | nil =>
    intro s
    simp only [ciStarts, true_iff]
    exact ⟨[], s, rfl, rfl⟩
  | cons t ts ih =>
    intro s
    cases s with
    | nil =>
      simp only [ciStarts, Bool.false_eq_true, false_iff]
      rintro ⟨w, rest, hw, hl⟩
      cases w with
      | nil => simp [lowerStr] at hl
      | cons a as => simp at hw
    | cons c cs =>
      simp only [ciStarts, Bool.and_eq_true, beq_iff_eq, ih]
      constructor
      · rintro ⟨ht, w, rest, hw, hl⟩
        refine ⟨c :: w, rest, by simp [hw], ?_⟩
        simp [lowerStr] at hl ⊢
        exact ⟨ht.symm, hl⟩
      · rintro ⟨w, rest, hw, hl⟩
        cases w with
        | nil => simp [lowerStr] at hl
        | cons a as =>
          simp only [List.cons_append, List.cons.injEq] at hw
          obtain ⟨hac, hcs⟩ := hw
          subst hac
          simp only [lowerStr, List.map_cons, List.cons.injEq] at hl
          exact ⟨hl.1.symm, as, rest, hcs, hl.2⟩

/-- The boolean word-bounded test and the declarative match agree. -/
theorem tokenHere_iff (prev : Option Char) (s tok : List Char) :
    tokenHere prev s tok = true ↔ MatchesHere prev s tok := by
  unfold tokenHere MatchesHere
  simp only [Bool.and_eq_true, ciStarts_iff]
  constructor
  · rintro ⟨⟨hbound, w, rest, hw, hl⟩, hafter⟩
    refine ⟨w, rest, hw, hl, hbound, ?_⟩
    have hlen : w.length = tok.length := by
      rw [← hl, lowerStr, List.length_map]
    rw [hw, ← hlen, List.drop_left] at hafter
    exact hafter
  · rintro ⟨w, rest, hw, hl, hbound, hafter⟩
    have hlen : w.length = tok.length := by
      rw [← hl, lowerStr, List.length_map]
    refine ⟨⟨hbound, w, rest, hw, hl⟩, ?_⟩
    rw [hw, ← hlen, List.drop_left]
    exact hafter

/-- Every rarity tier name is non-empty. -/
theorem rarityTokens_ne_nil : ∀ t ∈ rarityTokens, t ≠ [] := by decide

/-- No rarity tier name is a proper initial segment of another. -/
theorem rarityTokens_take : ∀ t1 ∈ rarityTokens, ∀ t2 ∈ rarityTokens,
    t1 = t2.take t1.length → t1 = t2 := by decide

/-- A successful scan returns a tier name occurring at some position before
which no tier name occurs at all (the regex's leftmost-match rule). -/
theorem scanTok_some (s : List Char) :
    ∀ (prev : Option Char) (tok : List Char), scanTok prev s = some tok →
      tok ∈ rarityTokens
      ∧ ∃ i, OccursFrom prev s i tok
          ∧ ∀ j t, j < i → t ∈ rarityTokens → ¬ OccursFrom prev s j t := by
  induction s with
  | nil => intro prev tok h; simp [scanTok] at h
  | cons c rest ih =>
    intro prev tok h
    rcases hfind : rarityTokens.find? (tokenHere prev (c :: rest)) with _ | t2
    · rw [scanTok, hfind] at h
      obtain ⟨hmem, i, hocc, hmin⟩ := ih (some c) tok h
      refine ⟨hmem, i + 1, hocc, ?_⟩
      intro j t hj ht
      cases j with
      | zero =>
        intro hocc0
        have hth : tokenHere prev (c :: rest) t = true :=
          (tokenHere_iff _ _ _).mpr hocc0
        have hno := List.find?_eq_none.mp hfind t ht
        simp [hth] at hno
      | succ j' =>
        intro hocc0
        exact hmin j' t (by omega) ht hocc0
    · rw [scanTok, hfind] at h
      obtain rfl : tok = t2 := (Option.some.inj h).symm
      have hth : tokenHere prev (c :: rest) tok = true := List.find?_some hfind
      have hmem : tok ∈ rarityTokens := List.mem_of_find?_eq_some hfind
      refine ⟨hmem, 0, (tokenHere_iff _ _ _).mp hth, ?_⟩
      intro j t hj ht
      exact absurd hj (Nat.not_lt_zero j)

/-- A failed scan means no tier name occurs anywhere. -/
theorem scanTok_none (s : List Char) :
    ∀ (prev : Option Char), scanTok prev s = none →
      ∀ i tok, tok ∈ rarityTokens → ¬ OccursFrom prev s i tok := by
  induction s with
  | nil =>
    intro prev _ i tok hmem hocc
    cases i with
    | zero =>
      obtain ⟨w, rest, hw, hl, _, _⟩ := hocc
      obtain ⟨rfl, -⟩ := (List.append_eq_nil.mp hw.symm)
      exact rarityTokens_ne_nil tok hmem (by simpa [lowerStr] using hl.symm)
    | succ i' => exact hocc
  | cons c rest ih =>
    intro prev h i tok hmem hocc
    rcases hfind : rarityTokens.find? (tokenHere prev (c :: rest)) with _ | t2
    · rw [scanTok, hfind] at h
      cases i with
      | zero =>
        have hth : tokenHere prev (c :: rest) tok = true :=
          (tokenHere_iff _ _ _).mpr hocc
        have hno := List.find?_eq_none.mp hfind tok hmem
        simp [hth] at hno
      | succ i' => exact ih (some c) h i' tok hmem hocc
    · rw [scanTok, hfind] at h
      exact Option.noConfusion h

/-- Two tier names occurring at the same position are the same name (no tier
name begins another, so the matched word determines the name). -/
theorem occurs_unique (s : List Char) :
    ∀ (prev : Option Char) (i : Nat) (t1 t2 : List Char),
      t1 ∈ rarityTokens → t2 ∈ rarityTokens →
      OccursFrom prev s i t1 → OccursFrom prev s i t2 → t1 = t2 := by
  induction s with
  | nil =>
    intro prev i t1 t2 h1 h2 ho1 ho2
    cases i with
    | zero =>
      obtain ⟨w, rest, hw, hl, _, _⟩ := ho1
      obtain ⟨rfl, -⟩ := (List.append_eq_nil.mp hw.symm)
      exact absurd (by simpa [lowerStr] using hl.symm) (rarityTokens_ne_nil t1 h1)
    | succ i' => exact ho1.elim
  | cons c rest ih =>
    intro prev i t1 t2 h1 h2 ho1 ho2
    cases i with
    | succ i' => exact ih (some c) i' t1 t2 h1 h2 ho1 ho2
    | zero =>
      obtain ⟨w1, r1, hw1, hl1, _, _⟩ := ho1
      obtain ⟨w2, r2, hw2, hl2, _, _⟩ := ho2
      have hlen1 : w1.length = t1.length := by rw [← hl1, lowerStr, List.length_map]
      have hlen2 : w2.length = t2.length := by rw [← hl2, lowerStr, List.length_map]
      have key : ∀ (wa ra wb rb : List Char) (ta tb : List Char),
          ta ∈ rarityTokens → tb ∈ rarityTokens →
          lowerStr wa = ta → lowerStr wb = tb →
          wa.length ≤ wb.length → wa ++ ra = wb ++ rb → ta = tb := by
        intro wa ra wb rb ta tb hta htb hla hlb hle happ
        have hwa : wa = wb.take wa.length := by
          have h1 : (wa ++ ra).take wa.length = wa := List.take_left wa ra
          rw [happ, List.take_append_of_le_length hle] at h1
          exact h1.symm
        have : ta = tb.take ta.length := by
          rw [← hla, ← hlb, hwa, lowerStr, lowerStr, List.map_take,
            List.length_take, List.length_map]
          congr 1
          omega
        exact rarityTokens_take ta hta tb htb this
      rcases Nat.le_total w1.length w2.length with hle | hle
      · exact key w1 r1 w2 r2 t1 t2 h1 h2 hl1 hl2 hle (hw1.symm.trans hw2)
      · exact (key w2 r2 w1 r1 t2 t1 h2 h1 hl2 hl1 hle (hw2.symm.trans hw1)).symm

/-- C8: when `rare` (any case, word-bounded) is the first rarity tier to
occur in the narrative, the extracted rarity is `"rare"`; when no tier
occurs at all, the rarity defaults to `"common"`. -/
theorem claim_C8_rarity (s : List Char) :
    ((∃ i, OccursFrom none s i ("rare".data)
        ∧ ∀ j t, j < i → t ∈ rarityTokens → ¬ OccursFrom none s j t) →
      extractRarity s = "rare".data)
    ∧ ((∀ i t, t ∈ rarityTokens → ¬ OccursFrom none s i t) →
      extractRarity s = "common".data) := by
  have hrare : ("rare".data) ∈ rarityTokens := by decide
  constructor
  · rintro ⟨i, hocc, hmin⟩
    rcases hscan : scanTok none s with _ | tok
    · exact absurd hocc (scanTok_none s none hscan i _ hrare)
    · obtain ⟨hmem, i2, hocc2, hmin2⟩ := scanTok_some s none tok hscan
      have hii : i2 = i := by
        rcases Nat.lt_trichotomy i i2 with h | h | h
        · exact absurd hocc (hmin2 i _ h hrare)
        · exact h.symm
        · exact absurd hocc2 (hmin i2 tok h hmem)
      subst hii
      have htok : tok = "rare".data :=
        occurs_unique s none i2 tok ("rare".data) hmem hrare hocc2 hocc
      simp [extractRarity, hscan, htok]
  · intro hnone
    rcases hscan : scanTok none s with _ | tok
    · simp [extractRarity, hscan]
    · obtain ⟨hmem, i2, hocc2, -⟩ := scanTok_some s none tok hscan
      exact absurd hocc2 (hnone i2 tok hmem)

/-- C8 witness: the two behaviours at concrete narratives. -/
theorem claim_C8_witness :
    extractRarity ("a genuinely Rare piece".data) = "rare".data
    ∧ extractRarity ("nothing of note here".data) = "common".data := by
  constructor
  · refine (claim_C8_rarity _).1 ?_
    obtain ⟨-, i, hocc, hmin⟩ :=
      scanTok_some ("a genuinely Rare piece".data) none ("rare".data) (by rfl)
    exact ⟨i, hocc, hmin⟩
  · refine (claim_C8_rarity _).2 ?_
    intro i t ht
    exact scanTok_none ("nothing of note here".data) none (by rfl) i t ht

/-! ## Claim C1 — fence and brace lemmas -/

/-- A character that is not a backtick cannot begin a fence. -/
theorem startsTriple_false {c : Char} (l : List Char) (h : isTick c = false) :
    startsTriple (c :: l) = false := by
  cases l with
  | nil => rfl
  | cons b l2 =>
    cases l2 with
    | nil => rfl
    | cons d l3 => simp [startsTriple, h]

/-- A fence at the head splits immediately. -/
theorem fenceSplit_fence (r : List Char) : fenceSplit (fence ++ r) = some ([], r) := rfl

/-- Backtick-free text passes through the fence search unchanged. -/
theorem fenceSplit_append (a : List Char) (r : List Char)
    (ha : ∀ ch ∈ a, isTick ch = false) :
    fenceSplit (a ++ r) =
      match fenceSplit r with
      | some (p, q) => some (a ++ p, q)
      | none => none := by
  induction a with
  | nil =>
    cases h : fenceSplit r with
    | none => simp [h]
    | some pq => obtain ⟨p, q⟩ := pq; simp [h]
  | cons x xs ih =>
    have hx : isTick x = false := ha x (List.mem_cons_self x xs)
    have hxs : ∀ ch ∈ xs, isTick ch = false :=
      fun ch hch => ha ch (List.mem_cons_of_mem x hch)
    have hst : startsTriple (x :: (xs ++ r)) = false := startsTriple_false _ hx
    rw [List.cons_append]
    rw [show fenceSplit (x :: (xs ++ r)) =
        (match fenceSplit (xs ++ r) with
          | some (pre, post) => some (x :: pre, post)
          | none => none) from by simp [fenceSplit, hst]]
    rw [ih hxs]
    cases h : fenceSplit r with
    | none => rfl
    | some pq => obtain ⟨p, q⟩ := pq; rfl

/-- No backticks, no fence. -/
theorem fenceSplit_none (s : List Char) (h : ∀ ch ∈ s, isTick ch = false) :
    fenceSplit s = none := by
  induction s with
  | nil => rfl
  | cons x xs ih =>
    have hst : startsTriple (x :: xs) = false :=
      startsTriple_false _ (h x (List.mem_cons_self x xs))
    simp [fenceSplit, hst, ih (fun ch hch => h ch (List.mem_cons_of_mem x hch))]

/-- A fence split recovers an append decomposition of the input. -/
theorem fenceSplit_decomp (s : List Char) :
    ∀ p q, fenceSplit s = some (p, q) → s = p ++ fence ++ q := by
  induction s with
  | nil => intro p q h; exact Option.noConfusion h
  | cons x xs ih =>
    intro p q h
    by_cases hst : startsTriple (x :: xs) = true
    · rw [fenceSplit, if_pos hst] at h
      injection h with h2
      cases xs with
      | nil => simp [startsTriple] at hst
      | cons y ys =>
        cases ys with
        | nil => simp [startsTriple] at hst
        | cons z rest =>
          simp only [startsTriple, isTick, Bool.and_eq_true, beq_iff_eq] at hst
          obtain ⟨rfl, rfl⟩ := Prod.mk.inj h2
          obtain ⟨⟨rfl, rfl⟩, rfl⟩ := hst
          simp [fence]
    · rw [fenceSplit, if_neg hst] at h
      cases hfs : fenceSplit xs with
      | none => rw [hfs] at h; cases h
      | some pq =>
        obtain ⟨p', q'⟩ := pq
        rw [hfs] at h
        injection h with h2
        obtain ⟨rfl, rfl⟩ := Prod.mk.inj h2
        have := ih p' q' hfs
        simp [this]

/-- The optional `json` tag is a no-op unless the next four characters
lowercase to `json`. -/
theorem stripJsonTag_eq_self {l : List Char}
    (h : lowerStr (l.take 4) ≠ ['j', 's', 'o', 'n']) : stripJsonTag l = l := by
  unfold stripJsonTag
  rw [if_neg h]

/-- In `c ++ fence ++ b` with `c` backtick-free and not starting with a
`json` tag, the first four characters do not lowercase to `json` either. -/
theorem take4_json_of_append (c b : List Char)
    (hc : lowerStr (c.take 4) ≠ ['j', 's', 'o', 'n']) :
    lowerStr ((c ++ (fence ++ b)).take 4) ≠ ['j', 's', 'o', 'n'] := by
  by_cases hlen : 4 ≤ c.length
  · rw [List.take_append_of_le_length hlen]
    exact hc
  · intro heq
    have hk : 1 ≤ 4 - c.length := by omega
    have htake : (c ++ (fence ++ b)).take 4
        = c.take 4 ++ (fence ++ b).take (4 - c.length) :=
      List.take_append_eq_append_take
    have hmem : Char.ofNat 96 ∈ (fence ++ b).take (4 - c.length) := by
      rcases Nat.exists_eq_add_of_le hk with ⟨k, hk2⟩
      rw [Nat.add_comm] at hk2
      rw [show fence ++ b = Char.ofNat 96 :: (Char.ofNat 96 :: Char.ofNat 96 :: b)
          from rfl, hk2, List.take_succ_cons]
      exact List.mem_cons_self _ _
    have hmem2 : Char.ofNat 96 ∈ (c ++ (fence ++ b)).take 4 := by
      rw [htake]
      exact List.mem_append_right _ hmem
    have hmem3 : Char.ofNat 96 ∈ lowerStr ((c ++ (fence ++ b)).take 4) := by
      have := List.mem_map_of_mem lowerChar hmem2
      simpa [lowerStr, show lowerChar (Char.ofNat 96) = Char.ofNat 96 from rfl]
        using this
    rw [heq] at hmem3
    exact absurd hmem3 (by decide)

/-- Appending whitespace-free texts stays whitespace-free at the head. -/
theorem dropWhile_eq_self_append {p : Char → Bool} {l r : List Char}
    (hl : l.dropWhile p = l) (hr : r.dropWhile p = r) :
    (l ++ r).dropWhile p = l ++ r := by
  cases l with
  | nil => simpa using hr
  | cons x xs =>
    have hx : p x = false := by
      by_cases hx : p x = true
      · rw [List.dropWhile_cons, if_pos hx] at hl
        have hlen := congrArg List.length hl
        have hle : (xs.dropWhile p).length ≤ xs.length :=
          (List.dropWhile_sublist p).length_le
        simp at hlen
        omega
      · revert hx; cases p x <;> simp
    simp [List.dropWhile_cons, hx]

/-- The fenced-block extraction on an explicitly fenced text: with a
backtick-free head, a backtick-free body not starting with a `json` tag and
already whitespace-trimmed, the body comes back exactly. -/
theorem fencedExtract_decomposed (a c b : List Char)
    (ha : ∀ ch ∈ a, isTick ch = false) (hc : ∀ ch ∈ c, isTick ch = false)
    (hj : lowerStr (c.take 4) ≠ ['j', 's', 'o', 'n'])
    (hlead : c.dropWhile jsWs = c) (htrail : trimEnd c = c) :
    fencedExtract (a ++ (fence ++ (c ++ (fence ++ b)))) = some c := by
  have h1 : fenceSplit (a ++ (fence ++ (c ++ (fence ++ b))))
      = some (a, c ++ (fence ++ b)) := by
    rw [fenceSplit_append a _ ha, fenceSplit_fence]
    simp
  have h2 : stripJsonTag (c ++ (fence ++ b)) = c ++ (fence ++ b) :=
    stripJsonTag_eq_self (take4_json_of_append c b hj)
  have hfb : (fence ++ b).dropWhile jsWs = fence ++ b := rfl
  have h3 : (c ++ (fence ++ b)).dropWhile jsWs = c ++ (fence ++ b) :=
    dropWhile_eq_self_append hlead hfb
  have h4 : fenceSplit (c ++ (fence ++ b)) = some (c, b) := by
    rw [fenceSplit_append c _ hc, fenceSplit_fence]
    simp
  unfold fencedExtract
  rw [h1]
  dsimp only
  rw [h2, h3, h4]
  dsimp only
  rw [htrail]

/-- A successful fenced extraction means the text contains two fences. -/
theorem fencedExtract_some_decomp (s u : List Char) (h : fencedExtract s = some u) :
    ∃ a c b, s = a ++ fence ++ c ++ fence ++ b := by
  unfold fencedExtract at h
  cases h1 : fenceSplit s with
  | none => rw [h1] at h; cases h
  | some pq =>
    obtain ⟨pre, afterOpen⟩ := pq
    rw [h1] at h
    dsimp only at h
    cases h2 : fenceSplit ((stripJsonTag afterOpen).dropWhile jsWs) with
    | none => rw [h2] at h; cases h
    | some pq2 =>
      obtain ⟨content, tail⟩ := pq2
      have hs := fenceSplit_decomp s pre afterOpen h1
      have hb := fenceSplit_decomp _ content tail h2
      obtain ⟨j, hj⟩ : ∃ j, afterOpen = j ++ stripJsonTag afterOpen := by
        unfold stripJsonTag
        split
        · exact ⟨afterOpen.take 4, (List.take_append_drop 4 afterOpen).symm⟩
        · exact ⟨[], rfl⟩
      obtain ⟨tw, hstrip⟩ : ∃ tw, stripJsonTag afterOpen = tw ++ (content ++ fence ++ tail) :=
        ⟨(stripJsonTag afterOpen).takeWhile jsWs, by
          rw [← hb]
          exact (List.takeWhile_append_dropWhile jsWs (stripJsonTag afterOpen)).symm⟩
      refine ⟨pre, j ++ tw ++ content, tail, ?_⟩
      rw [hs, hj, hstrip]
      simp [List.append_assoc]

/-- Open-brace-free text passes through the first-brace search unchanged. -/
theorem afterFirstOpen_append (a : List Char) (r : List Char)
    (ha : ∀ ch ∈ a, isOpen ch = false) :
    afterFirstOpen (a ++ Char.ofNat 123 :: r) = some r := by
  induction a with
  | nil => rfl
  | cons x xs ih =>
    have hx := ha x (List.mem_cons_self x xs)
    simp [afterFirstOpen, hx, ih (fun ch hch => ha ch (List.mem_cons_of_mem x hch))]

/-- Dropping over an all-satisfying head continues in the tail. -/
theorem dropWhile_append_all {p : Char → Bool} (l1 l2 : List Char)
    (h : ∀ x ∈ l1, p x = true) : (l1 ++ l2).dropWhile p = l2.dropWhile p := by
  induction l1 with
  | nil => rfl
  | cons x xs ih =>
    rw [List.cons_append, List.dropWhile_cons, if_pos (h x (List.mem_cons_self x xs))]
    exact ih (fun y hy => h y (List.mem_cons_of_mem x hy))

/-- Locating the last closing brace in `mid ++ cb :: post` with a brace-free
tail returns `mid ++ [cb]`. -/
theorem upToLastClose_decomposed (mid post : List Char)
    (hpost : ∀ ch ∈ post, isClose ch = false) :
    upToLastClose (mid ++ Char.ofNat 125 :: post) = some (mid ++ [Char.ofNat 125]) := by
  unfold upToLastClose
  have hrev : (mid ++ Char.ofNat 125 :: post).reverse
      = post.reverse ++ Char.ofNat 125 :: mid.reverse := by simp
  rw [hrev, dropWhile_append_all _ _
    (fun x hx => by simp [hpost x (List.mem_reverse.mp hx)])]
  rw [List.dropWhile_cons, if_neg (by simp [isClose])]
  simp

/-- The first character surviving a `dropWhile` fails the predicate. -/
theorem dropWhile_head_false {p : Char → Bool} (l : List Char) :
    ∀ x xs, l.dropWhile p = x :: xs → p x = false := by
  induction l with
  | nil => intro x xs h; cases h
  | cons y ys ih =>
    intro x xs h
    rw [List.dropWhile_cons] at h
    by_cases hy : p y = true
    · rw [if_pos hy] at h
      exact ih x xs h
    · rw [if_neg hy] at h
      injection h with h1 h2
      subst h1
      revert hy
      cases p y <;> simp

/-- A successful last-close search recovers a closing brace in the input. -/
theorem upToLastClose_decomp (l body : List Char) (h : upToLastClose l = some body) :
    ∃ m b, l = m ++ Char.ofNat 125 :: b := by
  unfold upToLastClose at h
  cases hr : l.reverse.dropWhile (fun c => !isClose c) with
  | nil => rw [hr] at h; cases h
  | cons x r1 =>
    have hx : (!isClose x) = false := dropWhile_head_false _ _ _ hr
    have hx2 : x = Char.ofNat 125 := by
      have : isClose x = true := by revert hx; cases isClose x <;> simp
      simpa [isClose] using this
    have hsplit : l.reverse.takeWhile (fun c => !isClose c) ++ (x :: r1) = l.reverse := by
      rw [← hr]
      exact List.takeWhile_append_dropWhile _ _
    refine ⟨r1.reverse, (l.reverse.takeWhile (fun c => !isClose c)).reverse, ?_⟩
    subst hx2
    have := congrArg List.reverse hsplit
    simpa [List.reverse_append] using this.symm

/-- A successful first-brace search recovers an opening brace in the input. -/
theorem afterFirstOpen_decomp (s : List Char) :
    ∀ rest, afterFirstOpen s = some rest → ∃ a, s = a ++ Char.ofNat 123 :: rest := by
  induction s with
  | nil => intro rest h; cases h
  | cons x xs ih =>
    intro rest h
    by_cases hx : isOpen x = true
    · rw [afterFirstOpen, if_pos hx] at h
      injection h with h2
      subst h2
      have hx2 : x = Char.ofNat 123 := by simpa [isOpen] using hx
      exact ⟨[], by simp [hx2]⟩
    · rw [afterFirstOpen, if_neg hx] at h
      obtain ⟨a, ha⟩ := ih rest h
      exact ⟨x :: a, by simp [ha]⟩

/-- A successful brace extraction means the text has a closing brace after
an opening one. -/
theorem braceExtract_some_decomp (s u : List Char) (h : braceExtract s = some u) :
    ∃ a m b, s = a ++ [Char.ofNat 123] ++ m ++ [Char.ofNat 125] ++ b := by
  unfold braceExtract at h
  cases h1 : afterFirstOpen s with
  | none => rw [h1] at h; cases h
  | some rest =>
    rw [h1] at h
    dsimp only at h
    cases h2 : upToLastClose rest with
    | none => rw [h2] at h; cases h
    | some body =>
      obtain ⟨a, ha⟩ := afterFirstOpen_decomp s rest h1
      obtain ⟨m, b, hmb⟩ := upToLastClose_decomp rest body h2
      refine ⟨a, m, b, ?_⟩
      rw [ha, hmb]
      simp

/-! ## Claim C1 -/

/-- C1: the JSON sub-extraction follows the claimed algorithm.
(1) A fenced block's contents are taken: for any text assembled as
`a ++ fence ++ c ++ fence ++ b` with a backtick-free head `a` and a
backtick-free, `json`-tag-free, whitespace-trimmed body `c`, the candidate
is exactly `c`.  (2) With no fenced block, the greedy brace branch decides.
(3) The brace branch takes exactly the substring from the first `\x7b` to
the last `\x7d`.  (4)–(5) Parsing happens once; on failure the fixed
normalization is applied and parsing is retried exactly once.  (6) The
trailing-comma example `\x7b"score":80,\x7d` fails the first parse and is
recovered by the retry into the object with `score = 80`.  (7) When no
candidate exists, both the authenticity and the price call fail with their
error message — no default value is produced. -/
theorem claim_C1_json_subextraction :
    (∀ a c b : List Char,
        (∀ ch ∈ a, isTick ch = false) → (∀ ch ∈ c, isTick ch = false) →
        lowerStr (c.take 4) ≠ ['j', 's', 'o', 'n'] →
        c.dropWhile jsWs = c → trimEnd c = c →
        extractJsonText (a ++ fence ++ c ++ fence ++ b) = some c)
    ∧ (∀ t, fencedExtract t = none → extractJsonText t = braceExtract t)
    ∧ (∀ pre mid post : List Char,
        (∀ ch ∈ pre, isOpen ch = false) → (∀ ch ∈ post, isClose ch = false) →
        braceExtract (pre ++ [Char.ofNat 123] ++ mid ++ [Char.ofNat 125] ++ post)
          = some (Char.ofNat 123 :: (mid ++ [Char.ofNat 125])))
    ∧ (∀ j, jvParse j = none → parseWithRetry j = jvParse (cleanModelJson j))
    ∧ (∀ j v, jvParse j = some v → parseWithRetry j = some v)
    ∧ (jvParse ("\x7b\"score\":80,\x7d".data) = none
        ∧ cleanModelJson ("\x7b\"score\":80,\x7d".data) = ("\x7b\"score\":80\x7d".data)
        ∧ parseWithRetry ("\x7b\"score\":80,\x7d".data)
            = some (Jv.jobj [("score".data, Jv.jnum ⟨80, 0⟩)]))
    ∧ (∀ t, extractJsonText t = none →
        modelJsonOf authNoJsonMsg t = .error authNoJsonMsg
        ∧ modelJsonOf priceNoJsonMsg t = .error priceNoJsonMsg) := by
  refine ⟨?_, ?_, ?_, ?_, ?_, ⟨rfl, rfl, rfl⟩, ?_⟩
  · intro a c b ha hc hj hlead htrail
    have h := fencedExtract_decomposed a c b ha hc hj hlead htrail
    have hshape : a ++ fence ++ c ++ fence ++ b
        = a ++ (fence ++ (c ++ (fence ++ b))) := by simp [List.append_assoc]
    rw [hshape, extractJsonText, h]
  · intro t h
    simp [extractJsonText, h]
  · intro pre mid post hpre hpost
    have h := upToLastClose_decomposed mid post hpost
    have hshape : pre ++ [Char.ofNat 123] ++ mid ++ [Char.ofNat 125] ++ post
        = pre ++ Char.ofNat 123 :: (mid ++ Char.ofNat 125 :: post) := by
      simp [List.append_assoc]
    rw [hshape, braceExtract, afterFirstOpen_append pre _ hpre]
    dsimp only
    rw [h]
  · intro j h
    simp [parseWithRetry, h]
  · intro j v h
    simp [parseWithRetry, h]
  · intro t h
    constructor <;> simp [modelJsonOf, h]

/-- C1 witness: the algorithm at concrete inputs — a fenced response, a
braces-only response, the trailing-comma recovery, and the no-candidate
failure of both calls. -/
theorem claim_C1_witness :
    extractJsonText ("noise ```json \x7b\"a\":1\x7d``` more".data)
      = some ("\x7b\"a\":1\x7d".data)
    ∧ extractJsonText ("x \x7b\"a\":1\x7d y".data) = braceExtract ("x \x7b\"a\":1\x7d y".data)
    ∧ braceExtract ("ab\x7bcd\x7def".data) = some ("\x7bcd\x7d".data)
    ∧ parseWithRetry ("\x7b\"score\":80,\x7d".data)
        = jvParse (cleanModelJson ("\x7b\"score\":80,\x7d".data))
    ∧ parseWithRetry ("\x7b\"score\":80\x7d".data)
        = some (Jv.jobj [("score".data, Jv.jnum ⟨80, 0⟩)])
    ∧ modelJsonOf authNoJsonMsg ("plain prose".data) = .error authNoJsonMsg := by
  refine ⟨?_, ?_, ?_, ?_, ?_, ?_⟩
  · have h := claim_C1_json_subextraction.1
      ("noise ".data) ("\x7b\"a\":1\x7d".data) (" more".data)
      (by decide) (by decide) (by decide) (by decide) (by decide)
    exact h
  · exact claim_C1_json_subextraction.2.1 _ (by rfl)
  · have h := claim_C1_json_subextraction.2.2.1
      ("ab".data) ("cd".data) ("ef".data) (by decide) (by decide)
    exact h
  · exact claim_C1_json_subextraction.2.2.2.1 _ (by rfl)
  · exact claim_C1_json_subextraction.2.2.2.2.1 _ _ (by rfl)
  · exact (claim_C1_json_subextraction.2.2.2.2.2.2 _ (by rfl)).1

/-! ## Claim C2 -/

/-- A backtick-free text admits no fenced-block decomposition. -/
theorem no_fence_decomp_of_no_tick {s : List Char}
    (h : ∀ ch ∈ s, isTick ch = false) :
    ¬ ∃ a c b, s = a ++ fence ++ c ++ fence ++ b := by
  rintro ⟨a, c, b, rfl⟩
  have hm : Char.ofNat 96 ∈ a ++ fence ++ c ++ fence ++ b := by
    simp [fence]
  have := h _ hm
  simp [isTick] at this

/-- A text without opening braces admits no brace decomposition. -/
theorem no_brace_decomp_of_no_open {s : List Char}
    (h : ∀ ch ∈ s, isOpen ch = false) :
    ¬ ∃ a m b, s = a ++ [Char.ofNat 123] ++ m ++ [Char.ofNat 125] ++ b := by
  rintro ⟨a, m, b, rfl⟩
  have hm : Char.ofNat 123 ∈ a ++ [Char.ofNat 123] ++ m ++ [Char.ofNat 125] ++ b := by
    simp
  have := h _ hm
  simp [isOpen] at this

/-- C2: when the authenticity response contains no fenced block and no
brace-delimited substring, the `/analyze` flow answers status 500 (a 5xx)
with a non-empty `details` message, and the session store is exactly what
it was — no session is created. -/
theorem claim_C2_unparseable_auth_fails (ttl now : Nat) (store : Store SessionDoc)
    (sid : String) (imgs : List (List Char)) (narrative authText priceText : List Char)
    (hnf : ¬ ∃ a c b, authText = a ++ fence ++ c ++ fence ++ b)
    (hnb : ¬ ∃ a m b, authText = a ++ [Char.ofNat 123] ++ m ++ [Char.ofNat 125] ++ b) :
    (analyzeHandler ttl now store sid imgs narrative authText priceText).status = 500
    ∧ 500 ≤ (analyzeHandler ttl now store sid imgs narrative authText priceText).status
    ∧ (analyzeHandler ttl now store sid imgs narrative authText priceText).status < 600
    ∧ (analyzeHandler ttl now store sid imgs narrative authText priceText).errorDetails
        = some (authFailWrap ++ authNoJsonMsg)
    ∧ authFailWrap ++ authNoJsonMsg ≠ []
    ∧ (analyzeHandler ttl now store sid imgs narrative authText priceText).store
        = store := by
  have hfe : fencedExtract authText = none := by
    cases hfe : fencedExtract authText with
    | none => rfl
    | some u => exact absurd (fencedExtract_some_decomp _ u hfe) hnf
  have hbe : braceExtract authText = none := by
    cases hbe : braceExtract authText with
    | none => rfl
    | some u => exact absurd (braceExtract_some_decomp _ u hbe) hnb
  have hext : extractJsonText authText = none := by
    simp [extractJsonText, hfe, hbe]
  have hauth : computeAuthenticityFromText authText = .error authNoJsonMsg := by
    simp [computeAuthenticityFromText, modelJsonOf, hext, Except.map]
  have hout : analyzeHandler ttl now store sid imgs narrative authText priceText
      = ⟨500, some (authFailWrap ++ authNoJsonMsg), store⟩ := by
    simp [analyzeHandler, hauth]
  rw [hout]
  refine ⟨rfl, ?_, ?_, rfl, by decide, rfl⟩
  · show 500 ≤ 500
    omega
  · show 500 < 600
    omega

/-- C2 witness: a plain-prose authenticity response at a concrete store. -/
theorem claim_C2_witness :
    (analyzeHandler 5 0 ([] : Store SessionDoc) "sid" [] []
        ("The model replied in plain prose, no JSON at all.".data)
        ("irrelevant".data)).status = 500
    ∧ (analyzeHandler 5 0 ([] : Store SessionDoc) "sid" [] []
        ("The model replied in plain prose, no JSON at all.".data)
        ("irrelevant".data)).store = ([] : Store SessionDoc) := by
  have h := claim_C2_unparseable_auth_fails 5 0 [] "sid" [] []
    ("The model replied in plain prose, no JSON at all.".data) ("irrelevant".data)
    (no_fence_decomp_of_no_tick (by decide))
    (no_brace_decomp_of_no_open (by decide))
  exact ⟨h.1, h.2.2.2.2.2⟩

end Clot
